import Mathlib

/-!
Shallow embedding of the pierobassa/evm-from-scratch execution engine
(Go sources: evm.go, opcodes/opcodes.go, utils, pool) together with
proofs about it.  Machine bytes and 256-bit words are modelled as natural
numbers; Go big.Int values (always non-negative when stored on the stack)
are ℕ, with ℤ used where an intermediate Go computation can be negative,
reduced with Euclidean `Int.emod` exactly where the Go code applies
big.Int.Mod.  Fallible Go returns (value, ok) become `Option`; a Go nil
pointer dereference inside math/big is modelled by a dedicated `panic`
outcome.  The Go `for pc < len(code)` loop is modelled with an explicit
fuel argument; a fuel-sufficiency theorem shows the supplied fuel is
never exhausted, so the model is total exactly like the source loop.
-/

namespace EvmFromScratch

/-- Modulus to wrap big integers to 256 bits (evm.go line 9). -/
def modulus : ℕ := 2 ^ 256

/-- OpCode mnemonics (opcodes/opcodes.go, the `const` block). -/
inductive OpCode where
  | Stop | Push0 | Push1 | Push2 | Push4 | Push6 | Push10 | Push11 | Push32
  | Pop | Add | Mul | Sub | Div | Sdiv | Mod | Smod | Addmod | Mulmod | Exp
  | Signextend | Lt | Gt | Slt | Sgt
  deriving DecidableEq, Repr

/-- opCodeMap: the byte-to-mnemonic table (opcodes/opcodes.go lines 40-66).
Unmapped bytes yield `none`, the model of NewOpCode's error. -/
def opCodeMap (b : ℕ) : Option OpCode :=
  match b with
  | 0 => some .Stop
  | 95 => some .Push0
  | 96 => some .Push1
  | 97 => some .Push2
  | 99 => some .Push4
  | 101 => some .Push6
  | 105 => some .Push10
  | 106 => some .Push11
  | 127 => some .Push32
  | 80 => some .Pop
  | 1 => some .Add
  | 2 => some .Mul
  | 3 => some .Sub
  | 4 => some .Div
  | 5 => some .Sdiv
  | 6 => some .Mod
  | 7 => some .Smod
  | 8 => some .Addmod
  | 9 => some .Mulmod
  | 10 => some .Exp
  | 11 => some .Signextend
  | 16 => some .Lt
  | 17 => some .Gt
  | 18 => some .Slt
  | 19 => some .Sgt
  | _ => none

/-- PushOpcodeToBytes: operand width of each PUSH opcode
(opcodes/opcodes.go lines 69-77). -/
def PushOpcodeToBytes : OpCode → Option ℕ
  | .Push1 => some 1
  | .Push2 => some 2
  | .Push4 => some 4
  | .Push6 => some 6
  | .Push10 => some 10
  | .Push11 => some 11
  | .Push32 => some 32
  | _ => none

/-- big.Int.SetBytes: interpret a byte list as a big-endian natural. -/
def beBytesToNat (bs : List ℕ) : ℕ :=
  bs.foldl (fun acc b => acc * 256 + b) 0

/-- Little-endian byte expansion of a natural number, driven by a fuel
argument so the definition is structural (fuel `x` always suffices since
a positive number has at most `x` base-256 digits). -/
def natToBytesLEFuel : ℕ → ℕ → List ℕ
  | _, 0 => []
  | 0, _ + 1 => []
  | fuel + 1, x + 1 => ((x + 1) % 256) :: natToBytesLEFuel fuel ((x + 1) / 256)

/-- big.Int.Bytes: the minimal big-endian byte encoding of a natural
number (empty for zero). -/
def natBytes (x : ℕ) : List ℕ :=
  (natToBytesLEFuel x x).reverse

/-- utils.FromLittleEndian / evm.go fromLittleEndian: in-place reversal of
a byte slice, i.e. `List.reverse` on values. -/
def fromLittleEndian (bytes : List ℕ) : List ℕ :=
  bytes.reverse

/-- pushX (evm.go lines 80-90): read `size` operand bytes at `pc`; if they
would run past the end of the code, do nothing; otherwise push their
big-endian value and set pc past them.  Returns the updated (pc, stack). -/
def pushX (pc : ℕ) (stack : List ℕ) (code : List ℕ) (size : ℕ) : ℕ × List ℕ :=
  let e := pc + size
  if e ≤ code.length then
    (e, stack ++ [beBytesToNat ((code.drop pc).take size)])
  else
    (pc, stack)

/-- popX (evm.go lines 93-106): on underflow return `none` (Go: nil,
false) leaving pc untouched; otherwise return the last `size` elements in
slice order, pc incremented once, and the remaining stack. -/
def popX (pc : ℕ) (stack : List ℕ) (size : ℕ) : Option (List ℕ × ℕ × List ℕ) :=
  if stack.length < size then none
  else some (stack.drop (stack.length - size), pc + 1, stack.take (stack.length - size))

/-- popLastElement (evm.go lines 122-130): pop a single element. -/
def popLastElement (pc : ℕ) (stack : List ℕ) : Option (ℕ × ℕ × List ℕ) :=
  if stack.length < 1 then none
  else
    match popX pc stack 1 with
    | none => none
    | some (elements, pc2, st2) => some (elements.headD 0, pc2, st2)

/-- mod (evm.go lines 108-113): modulus with an explicit zero-divisor
check returning 0. -/
def mod (a b : ℕ) : ℕ :=
  if b = 0 then 0 else a % b

/-- div (evm.go lines 115-120): division with an explicit zero-divisor
check returning 0. -/
def div (a b : ℕ) : ℕ :=
  if b = 0 then 0 else a / b

/-- Outcome of one stack-mutating unit (Go: bool return plus pointer
mutation of pc and stack; `panic` models a Go nil-pointer dereference). -/
inductive UnitResult where
  | ok (pc : ℕ) (stack : List ℕ)
  | fault
  | panic
  deriving DecidableEq, Repr

/-- Tail of applyArithmeticOp (evm.go lines 168-174): reduce the result
modulo 2^256 with big.Int.Mod (Euclidean, so non-negative), append it and
increment pc. -/
def pushReduced (result : ℤ) (pc : ℕ) (stack : List ℕ) : UnitResult :=
  .ok (pc + 1) (stack ++ [(result % (modulus : ℤ)).toNat])

/-- applyArithmeticOp (evm.go lines 133-175).  The leading length guard
only checks for 2 operands; ADDMOD/MULMOD pop a third operand ignoring
the ok flag, so with exactly 2 elements the nil modulus reaches `mod`,
which dereferences it: that is the `panic` outcome. -/
def applyArithmeticOp (opcode : OpCode) (pc : ℕ) (stack : List ℕ) : UnitResult :=
  if stack.length < 2 then .fault
  else
    match popLastElement pc stack with
    | none => .panic
    | some (a, pc1, st1) =>
      match popLastElement pc1 st1 with
      | none => .panic
      | some (b, pc2, st2) =>
        match opcode with
        | .Add => pushReduced ((a : ℤ) + (b : ℤ)) pc2 st2
        | .Sub => pushReduced ((a : ℤ) - (b : ℤ)) pc2 st2
        | .Mul => pushReduced ((a : ℤ) * (b : ℤ)) pc2 st2
        | .Div => pushReduced ((div a b : ℕ) : ℤ) pc2 st2
        | .Mod => pushReduced ((mod a b : ℕ) : ℤ) pc2 st2
        | .Addmod =>
            match popLastElement pc2 st2 with
            | none => .panic
            | some (modValue, pc3, st3) =>
                pushReduced ((mod (a + b) modValue : ℕ) : ℤ) pc3 st3
        | .Mulmod =>
            match popLastElement pc2 st2 with
            | none => .panic
            | some (modValue, pc3, st3) =>
                pushReduced ((mod (a * b) modValue : ℕ) : ℤ) pc3 st3
        | .Exp => pushReduced ((a : ℤ) ^ b) pc2 st2
        | _ => .fault

/-- isNegative (evm.go lines 238-240, utils): bit 255 set. -/
def isNegative (x : ℕ) : Bool :=
  x.testBit 255

/-- overflowingNeg (evm.go lines 243-250, utils.OverflowingNeg):
two's-complement negation, wrapped to 256 bits with Euclidean Mod. -/
def overflowingNeg (x : ℕ) : ℕ :=
  ((-(x : ℤ)) % (modulus : ℤ)).toNat

/-- sdiv (evm.go lines 252-290): signed division with zero-divisor
shortcut, performed on magnitudes with the sign reapplied. -/
def sdiv (pc : ℕ) (stack : List ℕ) : UnitResult :=
  if stack.length < 2 then .fault
  else
    match popLastElement pc stack with
    | none => .panic
    | some (a, pc1, st1) =>
      match popLastElement pc1 st1 with
      | none => .panic
      | some (b, pc2, st2) =>
        if b = 0 then .ok (pc2 + 1) (st2 ++ [0])
        else
          let aIsNegative := isNegative a
          let bIsNegative := isNegative b
          let a2 := if aIsNegative then overflowingNeg a else a
          let b2 := if bIsNegative then overflowingNeg b else b
          let q := a2 / b2
          let signed : ℤ := if aIsNegative ≠ bIsNegative then -(q : ℤ) else (q : ℤ)
          .ok (pc2 + 1) (st2 ++ [(signed % (modulus : ℤ)).toNat])

/-- signExtend (evm.go lines 188-235).  Note the source right-pads the
big-endian x.Bytes() with zero bytes, indexes and rewrites that array,
and finally reverses it before SetBytes, i.e. it treats the array as
little-endian even though x.Bytes() is big-endian. -/
def signExtend (pc : ℕ) (stack : List ℕ) : UnitResult :=
  if stack.length < 2 then .fault
  else
    match popLastElement pc stack with
    | none => .panic
    | some (k, pc1, st1) =>
      match popLastElement pc1 st1 with
      | none => .panic
      | some (x, pc2, st2) =>
        if 31 < k then .ok (pc2 + 1) (st2 ++ [x])
        else
          let bytes := natBytes x
          let padded := bytes ++ List.replicate (32 - bytes.length) 0
          let signByte := padded.getD k 0
          let rewritten := padded.mapIdx fun i b =>
            if k < i ∧ i < 32 then (if 127 < signByte then 255 else 0) else b
          let result := beBytesToNat (fromLittleEndian rewritten)
          .ok (pc2 + 1) (st2 ++ [result])

/-- ltComparison (opcodes, lines 330-335): 1 if a < b else 0. -/
def ltComparison (a b : ℕ) : ℕ :=
  if a < b then 1 else 0

/-- gtComparison (opcodes, lines 338-343): 1 if a > b else 0. -/
def gtComparison (a b : ℕ) : ℕ :=
  if b < a then 1 else 0

/-- sltComparison (opcodes, lines 348-367): signed less-than; for two
negatives the magnitudes (via OverflowingNeg) compare reversed. -/
def sltComparison (a b : ℕ) : ℕ :=
  if isNegative a && !isNegative b then 1
  else if !isNegative a && isNegative b then 0
  else if isNegative a && isNegative b then
    (if overflowingNeg a ≤ overflowingNeg b then 0 else 1)
  else
    (if a < b then 1 else 0)

/-- sgtComparison (opcodes, lines 372-391): signed greater-than. -/
def sgtComparison (a b : ℕ) : ℕ :=
  if isNegative a && !isNegative b then 0
  else if !isNegative a && isNegative b then 1
  else if isNegative a && isNegative b then
    (if overflowingNeg b ≤ overflowingNeg a then 0 else 1)
  else
    (if b < a then 1 else 0)

/-- applySignedModulus (opcodes package): unsigned modulus of the
magnitudes, result taking the dividend's sign, reduced mod 2^256. -/
def applySignedModulus (a b : ℕ) : ℕ :=
  let aIsNegative := isNegative a
  let bIsNegative := isNegative b
  let a2 := if aIsNegative then overflowingNeg a else a
  let b2 := if bIsNegative then overflowingNeg b else b
  let r := a2 % b2
  let signed : ℤ := if aIsNegative then -(r : ℤ) else (r : ℤ)
  (signed % (modulus : ℤ)).toNat

/-- SignedModulus (opcodes package): the SMOD unit, with the zero-divisor
shortcut pushing 0. -/
def SignedModulus (pc : ℕ) (stack : List ℕ) : UnitResult :=
  if stack.length < 2 then .fault
  else
    match popLastElement pc stack with
    | none => .panic
    | some (a, pc1, st1) =>
      match popLastElement pc1 st1 with
      | none => .panic
      | some (b, pc2, st2) =>
        if b = 0 then .ok (pc2 + 1) (st2 ++ [0])
        else .ok (pc2 + 1) (st2 ++ [applySignedModulus a b])

/-- Result of one whole execution (Go: `([]*big.Int, bool)`; `panic`
models a Go runtime panic escaping Evm; `outOfFuel` is an artefact of the
fuel-indexed loop model and is proved unreachable). -/
inductive ExecResult where
  | ret (stack : List ℕ) (success : Bool)
  | panic
  | outOfFuel
  deriving DecidableEq, Repr

/-- Evm's for-loop (evm.go lines 17-60) plus the epilogue (lines 62-65).
Each iteration first does pc+1 for the opcode byte (line 22) and then
runs the switch; SMOD, LT, GT, SLT and SGT have no case in the switch, so
for them nothing happens and the loop continues.  On normal exit the
stack is reversed (slices.Reverse) before being returned; the STOP case
returns the stack unreversed. -/
def evmLoop : ℕ → List ℕ → ℕ → List ℕ → ExecResult
  | 0, code, pc, stack =>
      if pc < code.length then ExecResult.outOfFuel
      else ExecResult.ret stack.reverse true
  | fuel + 1, code, pc, stack =>
      if pc < code.length then
        match opCodeMap (code.getD pc 0) with
        | none => ExecResult.ret [] false
        | some op =>
          match op with
          | .Stop => ExecResult.ret stack true
          | .Push0 => evmLoop fuel code (pc + 1) (stack ++ [0])
          | .Push1 =>
              let r := pushX (pc + 1) stack code 1
              evmLoop fuel code r.1 r.2
          | .Push2 =>
              let r := pushX (pc + 1) stack code 2
              evmLoop fuel code r.1 r.2
          | .Push4 =>
              let r := pushX (pc + 1) stack code 4
              evmLoop fuel code r.1 r.2
          | .Push6 =>
              let r := pushX (pc + 1) stack code 6
              evmLoop fuel code r.1 r.2
          | .Push10 =>
              let r := pushX (pc + 1) stack code 10
              evmLoop fuel code r.1 r.2
          | .Push11 =>
              let r := pushX (pc + 1) stack code 11
              evmLoop fuel code r.1 r.2
          | .Push32 =>
              let r := pushX (pc + 1) stack code 32
              evmLoop fuel code r.1 r.2
          | .Pop =>
              match popX (pc + 1) stack 1 with
              | none => ExecResult.ret [] false
              | some (_, pc2, st2) => evmLoop fuel code pc2 st2
          | .Add | .Sub | .Mul | .Div | .Mod | .Addmod | .Mulmod | .Exp =>
              match applyArithmeticOp op (pc + 1) stack with
              | .fault => ExecResult.ret [] false
              | .panic => ExecResult.panic
              | .ok pc2 st2 => evmLoop fuel code pc2 st2
          | .Signextend =>
              match signExtend (pc + 1) stack with
              | .fault => ExecResult.ret [] false
              | .panic => ExecResult.panic
              | .ok pc2 st2 => evmLoop fuel code pc2 st2
          | .Sdiv =>
              match sdiv (pc + 1) stack with
              | .fault => ExecResult.ret [] false
              | .panic => ExecResult.panic
              | .ok pc2 st2 => evmLoop fuel code pc2 st2
          | .Smod | .Lt | .Gt | .Slt | .Sgt =>
              evmLoop fuel code (pc + 1) stack
      else ExecResult.ret stack.reverse true

/-- Evm (evm.go lines 13-66): run the loop from pc 0 with an empty stack.
Fuel `code.length` suffices because pc strictly increases each iteration
and the loop only iterates while pc < code.length. -/
def Evm (code : List ℕ) : ExecResult :=
  evmLoop code.length code 0 []

/-! Helper lemmas about the stack primitives. -/

lemma popLastElement_append (pc : ℕ) (st : List ℕ) (v : ℕ) :
    popLastElement pc (st ++ [v]) = some (v, pc + 1, st) := by
  have h : (st ++ [v]).length = st.length + 1 := by simp
  unfold popLastElement popX
  rw [h]
  simp [List.drop_left, List.take_left]

lemma pushX_pc_le (pc : ℕ) (st code : List ℕ) (size : ℕ) :
    pc ≤ (pushX pc st code size).1 := by
  simp only [pushX]
  split <;> simp

lemma popX_pc {pc : ℕ} {st : List ℕ} {n : ℕ} {e : List ℕ} {pc2 : ℕ} {st2 : List ℕ}
    (h : popX pc st n = some (e, pc2, st2)) : pc2 = pc + 1 := by
  unfold popX at h
  split at h
  · exact absurd h (by simp)
  · simp only [Option.some.injEq, Prod.mk.injEq] at h
    omega

lemma popLastElement_pc {pc : ℕ} {st : List ℕ} {v pc2 : ℕ} {st2 : List ℕ}
    (h : popLastElement pc st = some (v, pc2, st2)) : pc2 = pc + 1 := by
  unfold popLastElement at h
  split at h
  · exact absurd h (by simp)
  · cases hpop : popX pc st 1 with
    | none => rw [hpop] at h; simp at h
    | some r =>
      obtain ⟨e, p2, s2⟩ := r
      rw [hpop] at h
      dsimp only at h
      simp only [Option.some.injEq, Prod.mk.injEq] at h
      have := popX_pc hpop
      omega

lemma pushReduced_ok {r : ℤ} {pc : ℕ} {st : List ℕ} {pc2 : ℕ} {st2 : List ℕ}
    (h : pushReduced r pc st = .ok pc2 st2) : pc2 = pc + 1 := by
  unfold pushReduced at h
  simp only [UnitResult.ok.injEq] at h
  omega

lemma applyArithmeticOp_ok_pc {op : OpCode} {pc : ℕ} {st : List ℕ} {pc2 : ℕ}
    {st2 : List ℕ} (h : applyArithmeticOp op pc st = .ok pc2 st2) : pc < pc2 := by
  unfold applyArithmeticOp at h
  split at h
  · exact absurd h (by simp)
  · cases h1 : popLastElement pc st with
    | none => rw [h1] at h; simp at h
    | some ra =>
      obtain ⟨a, pca, sta⟩ := ra
      rw [h1] at h
      dsimp only at h
      have hpa := popLastElement_pc h1
      cases h2 : popLastElement pca sta with
      | none => rw [h2] at h; simp at h
      | some rb =>
        obtain ⟨b, pcb, stb⟩ := rb
        rw [h2] at h
        dsimp only at h
        have hpb := popLastElement_pc h2
        cases op <;> simp only at h <;> try exact absurd h (by simp)
        case Add => have := pushReduced_ok h; omega
        case Sub => have := pushReduced_ok h; omega
        case Mul => have := pushReduced_ok h; omega
        case Div => have := pushReduced_ok h; omega
        case Mod => have := pushReduced_ok h; omega
        case Exp => have := pushReduced_ok h; omega
        case Addmod =>
          cases h3 : popLastElement pcb stb with
          | none => rw [h3] at h; simp at h
          | some rc =>
            obtain ⟨m, pcc, stc⟩ := rc
            rw [h3] at h
            dsimp only at h
            have hpc := popLastElement_pc h3
            have := pushReduced_ok h
            omega
        case Mulmod =>
          cases h3 : popLastElement pcb stb with
          | none => rw [h3] at h; simp at h
          | some rc =>
            obtain ⟨m, pcc, stc⟩ := rc
            rw [h3] at h
            dsimp only at h
            have hpc := popLastElement_pc h3
            have := pushReduced_ok h
            omega

lemma signExtend_ok_pc {pc : ℕ} {st : List ℕ} {pc2 : ℕ} {st2 : List ℕ}
    (h : signExtend pc st = .ok pc2 st2) : pc < pc2 := by
  unfold signExtend at h
  split at h
  · exact absurd h (by simp)
  · cases h1 : popLastElement pc st with
    | none => rw [h1] at h; simp at h
    | some ra =>
      obtain ⟨k, pca, sta⟩ := ra
      rw [h1] at h
      dsimp only at h
      have hpa := popLastElement_pc h1
      cases h2 : popLastElement pca sta with
      | none => rw [h2] at h; simp at h
      | some rb =>
        obtain ⟨x, pcb, stb⟩ := rb
        rw [h2] at h
        dsimp only at h
        have hpb := popLastElement_pc h2
        split at h <;> simp only [UnitResult.ok.injEq] at h <;> omega

lemma sdiv_ok_pc {pc : ℕ} {st : List ℕ} {pc2 : ℕ} {st2 : List ℕ}
    (h : sdiv pc st = .ok pc2 st2) : pc < pc2 := by
  unfold sdiv at h
  split at h
  · exact absurd h (by simp)
  · cases h1 : popLastElement pc st with
    | none => rw [h1] at h; simp at h
    | some ra =>
      obtain ⟨a, pca, sta⟩ := ra
      rw [h1] at h
      dsimp only at h
      have hpa := popLastElement_pc h1
      cases h2 : popLastElement pca sta with
      | none => rw [h2] at h; simp at h
      | some rb =>
        obtain ⟨b, pcb, stb⟩ := rb
        rw [h2] at h
        dsimp only at h
        have hpb := popLastElement_pc h2
        split at h <;> simp only [UnitResult.ok.injEq] at h <;> omega

/-! Fuel sufficiency: each loop iteration strictly increases pc, the loop
only iterates while pc < code.length, hence fuel code.length - pc is
never exhausted. -/

lemma evmLoop_fuel_sufficient :
    ∀ (fuel : ℕ) (code : List ℕ) (pc : ℕ) (stack : List ℕ),
      code.length - pc ≤ fuel → evmLoop fuel code pc stack ≠ ExecResult.outOfFuel := by
  intro fuel
  induction fuel with
  | zero =>
    intro code pc stack hle
    unfold evmLoop
    split
    · omega
    · simp
  | succ fuel ih =>
    intro code pc stack hle
    unfold evmLoop
    split
    case isFalse => simp
    case isTrue hpc =>
      cases hmap : opCodeMap (code.getD pc 0) with
      | none => simp
      | some op =>
        cases op <;> dsimp only
        case Stop => simp
        case Push0 => exact ih code (pc + 1) (stack ++ [0]) (by omega)
        case Push1 =>
          exact ih code _ _ (by have := pushX_pc_le (pc + 1) stack code 1; omega)
        case Push2 =>
          exact ih code _ _ (by have := pushX_pc_le (pc + 1) stack code 2; omega)
        case Push4 =>
          exact ih code _ _ (by have := pushX_pc_le (pc + 1) stack code 4; omega)
        case Push6 =>
          exact ih code _ _ (by have := pushX_pc_le (pc + 1) stack code 6; omega)
        case Push10 =>
          exact ih code _ _ (by have := pushX_pc_le (pc + 1) stack code 10; omega)
        case Push11 =>
          exact ih code _ _ (by have := pushX_pc_le (pc + 1) stack code 11; omega)
        case Push32 =>
          exact ih code _ _ (by have := pushX_pc_le (pc + 1) stack code 32; omega)
        case Pop =>
          cases hpop : popX (pc + 1) stack 1 with
          | none => simp
          | some r =>
            obtain ⟨e, pc2, st2⟩ := r
            have := popX_pc hpop
            exact ih code pc2 st2 (by omega)
        case Add =>
          cases har : applyArithmeticOp .Add (pc + 1) stack with
          | fault => simp
          | panic => simp
          | ok pc2 st2 => have := applyArithmeticOp_ok_pc har; exact ih code pc2 st2 (by omega)
        case Sub =>
          cases har : applyArithmeticOp .Sub (pc + 1) stack with
          | fault => simp
          | panic => simp
          | ok pc2 st2 => have := applyArithmeticOp_ok_pc har; exact ih code pc2 st2 (by omega)
        case Mul =>
          cases har : applyArithmeticOp .Mul (pc + 1) stack with
          | fault => simp
          | panic => simp
          | ok pc2 st2 => have := applyArithmeticOp_ok_pc har; exact ih code pc2 st2 (by omega)
        case Div =>
          cases har : applyArithmeticOp .Div (pc + 1) stack with
          | fault => simp
          | panic => simp
          | ok pc2 st2 => have := applyArithmeticOp_ok_pc har; exact ih code pc2 st2 (by omega)
        case Mod =>
          cases har : applyArithmeticOp .Mod (pc + 1) stack with
          | fault => simp
          | panic => simp
          | ok pc2 st2 => have := applyArithmeticOp_ok_pc har; exact ih code pc2 st2 (by omega)
        case Addmod =>
          cases har : applyArithmeticOp .Addmod (pc + 1) stack with
          | fault => simp
          | panic => simp
          | ok pc2 st2 => have := applyArithmeticOp_ok_pc har; exact ih code pc2 st2 (by omega)
        case Mulmod =>
          cases har : applyArithmeticOp .Mulmod (pc + 1) stack with
          | fault => simp
          | panic => simp
          | ok pc2 st2 => have := applyArithmeticOp_ok_pc har; exact ih code pc2 st2 (by omega)
        case Exp =>
          cases har : applyArithmeticOp .Exp (pc + 1) stack with
          | fault => simp
          | panic => simp
          | ok pc2 st2 => have := applyArithmeticOp_ok_pc har; exact ih code pc2 st2 (by omega)
        case Signextend =>
          cases har : signExtend (pc + 1) stack with
          | fault => simp
          | panic => simp
          | ok pc2 st2 => have := signExtend_ok_pc har; exact ih code pc2 st2 (by omega)
        case Sdiv =>
          cases har : sdiv (pc + 1) stack with
          | fault => simp
          | panic => simp
          | ok pc2 st2 => have := sdiv_ok_pc har; exact ih code pc2 st2 (by omega)
        case Smod => exact ih code (pc + 1) stack (by omega)
        case Lt => exact ih code (pc + 1) stack (by omega)
        case Gt => exact ih code (pc + 1) stack (by omega)
        case Slt => exact ih code (pc + 1) stack (by omega)
        case Sgt => exact ih code (pc + 1) stack (by omega)

/-! Arithmetic facts about the signed view used by the comparison unit. -/

lemma isNegative_ge {a : ℕ} (h : isNegative a = true) : 2 ^ 255 ≤ a := by
  unfold isNegative at h
  exact Nat.testBit_implies_ge h

lemma overflowingNeg_spec {a : ℕ} (h0 : 0 < a) (hM : a < modulus) :
    overflowingNeg a = modulus - a := by
  have ha0 : (0 : ℤ) < (a : ℤ) := by exact_mod_cast h0
  have haM : (a : ℤ) < (modulus : ℤ) := by exact_mod_cast hM
  have h2 : (-(a : ℤ)) % (modulus : ℤ) = (modulus : ℤ) - (a : ℤ) := by
    have h3 : (-(a : ℤ)) = ((modulus : ℤ) - (a : ℤ)) + (modulus : ℤ) * (-1) := by ring
    rw [h3]
    rw [Int.add_mul_emod_self_left]
    exact Int.emod_eq_of_lt (by omega) (by omega)
  unfold overflowingNeg
  rw [h2]
  exact Int.toNat_sub modulus a

/-! Claim theorems. -/

/-- Claim C1 (refuted, code bug): the claim says a successful POP advances
the program counter by exactly 1, i.e. only past the opcode byte.  In the
code pc is incremented once by the loop (evm.go line 22) and once more
inside popX (line 103), so POP advances pc by 2.  On the bytecode
PUSH1 1; POP; PUSH1 2 this lands pc on the operand byte 0x02, which
decodes as MUL and underflows: the run returns ([], false) where the
claimed single-step advance would give ([2], true). -/
theorem C1_pop_pc_overadvance :
    Evm [96, 1, 80, 96, 2] = ExecResult.ret [] false := by decide

/-- Claim C2 (refuted, code bug): the claim says the loop dispatches SMOD,
LT, GT, SLT, SGT to their units, popping 2 operands and pushing 1 result.
The switch in Evm (evm.go lines 24-59) has no case for any of these five
opcodes, so they are silent no-ops: on PUSH1 2; PUSH1 1; LT both operands
are still on the stack at the end and no result was pushed. -/
theorem C2_comparison_not_dispatched :
    Evm [96, 2, 96, 1, 16] = ExecResult.ret [1, 2] true := by decide

/-- Claim C3 (refuted, code bug): the claim (and the comment at evm.go
line 62) says the returned sequence presents the oldest surviving element
first and the top of stack last.  The internal slice already stores the
top at the end, so slices.Reverse produces exactly the opposite order: on
PUSH1 1; PUSH1 2 the code returns [2, 1] with the top first. -/
theorem C3_success_returns_top_first :
    Evm [96, 1, 96, 2] = ExecResult.ret [2, 1] true := by decide

/-- Claim C4 (refuted, code bug): the claim says ADDMOD with fewer than 3
stack elements aborts with success = false and never lets an exception
cross the public boundary.  With exactly 2 elements applyArithmeticOp
passes its length guard (which only checks for 2), the third pop fails
with its ok flag ignored, and `mod` dereferences the nil modulus: a Go
runtime panic escapes Evm instead of a boolean failure. -/
theorem C4_addmod_two_operands_panics :
    Evm [96, 1, 96, 1, 8] = ExecResult.panic := by decide

/-- Claim C5 (refuted, code bug): the claim describes SIGNEXTEND on the
32-byte big-endian view of x left-padded with zeros.  The code instead
right-pads the minimal big-endian x.Bytes() with zeros, indexes and
rewrites that array, and reverses it before SetBytes, treating it as
little-endian.  For k = 0 and x = 0x01FF (whose least-significant byte is
0xFF) the claim demands the all-ones word 2^256 - 1, but the code reads
sign byte 0x01 at index 0 and produces 1. -/
theorem C5_signextend_byte_order_wrong :
    signExtend 0 [511, 0] = UnitResult.ok 3 [1] ∧ (1 : ℕ) ≠ 2 ^ 256 - 1 := by
  exact ⟨by decide, by decide⟩

/-- Claim C6 counterexample: the claim says SIGNEXTEND(k, x) with k ≥ 31
pushes x back unchanged, but the shortcut in the code only covers k > 31
(evm.go line 198); at k = 31 the general byte-rewriting path runs and its
byte-order handling turns x = 256 into 1. -/
theorem C6_counterexample_k31 :
    signExtend 0 [256, 31] = UnitResult.ok 3 [1] ∧ (1 : ℕ) ≠ 256 := by
  exact ⟨by decide, by decide⟩

/-- Claim C6 as amended: for every k strictly greater than 31 and every x,
SIGNEXTEND(k, x) pushes x back unchanged (and advances pc like every
2-operand unit), and this is not an error. -/
theorem C6_signextend_gt31_noop (pc x k : ℕ) (st : List ℕ) (hk : 31 < k) :
    signExtend pc (st ++ [x, k]) = UnitResult.ok (pc + 3) (st ++ [x]) := by
  rw [show st ++ [x, k] = (st ++ [x]) ++ [k] by simp]
  unfold signExtend
  rw [if_neg (by simp)]
  rw [popLastElement_append pc (st ++ [x]) k]
  dsimp only
  rw [popLastElement_append (pc + 1) st x]
  dsimp only
  rw [if_pos hk]

/-- Witness for C6: SIGNEXTEND(32, 256) pushes 256 back unchanged. -/
theorem C6_signextend_gt31_noop_witness :
    31 < 32 ∧ signExtend 0 [256, 32] = UnitResult.ok 3 [256] :=
  ⟨by decide, by simpa using C6_signextend_gt31_noop 0 256 32 [] (by decide)⟩

/-- Claim C7 (confirmed): for every dividend a, DIV, MOD, SDIV and SMOD
with divisor 0 yield Word(0) and succeed; division by zero is never an
error.  The divisor is the element popped second, so the relevant stack
shape is st ++ [0, a] with the dividend a on top. -/
theorem C7_divisor_zero_yields_zero (a pc : ℕ) (st : List ℕ) :
    div a 0 = 0 ∧ mod a 0 = 0 ∧
    applyArithmeticOp OpCode.Div pc (st ++ [0, a]) = UnitResult.ok (pc + 3) (st ++ [0]) ∧
    applyArithmeticOp OpCode.Mod pc (st ++ [0, a]) = UnitResult.ok (pc + 3) (st ++ [0]) ∧
    sdiv pc (st ++ [0, a]) = UnitResult.ok (pc + 3) (st ++ [0]) ∧
    SignedModulus pc (st ++ [0, a]) = UnitResult.ok (pc + 3) (st ++ [0]) := by
  refine ⟨by simp [div], by simp [mod], ?_, ?_, ?_, ?_⟩
  · rw [show st ++ [0, a] = (st ++ [0]) ++ [a] by simp]
    unfold applyArithmeticOp
    rw [if_neg (by simp)]
    rw [popLastElement_append pc (st ++ [0]) a]
    dsimp only
    rw [popLastElement_append (pc + 1) st 0]
    dsimp only
    simp [pushReduced, div]
  · rw [show st ++ [0, a] = (st ++ [0]) ++ [a] by simp]
    unfold applyArithmeticOp
    rw [if_neg (by simp)]
    rw [popLastElement_append pc (st ++ [0]) a]
    dsimp only
    rw [popLastElement_append (pc + 1) st 0]
    dsimp only
    simp [pushReduced, mod]
  · rw [show st ++ [0, a] = (st ++ [0]) ++ [a] by simp]
    unfold sdiv
    rw [if_neg (by simp)]
    rw [popLastElement_append pc (st ++ [0]) a]
    dsimp only
    rw [popLastElement_append (pc + 1) st 0]
    dsimp only
    rw [if_pos rfl]
  · rw [show st ++ [0, a] = (st ++ [0]) ++ [a] by simp]
    unfold SignedModulus
    rw [if_neg (by simp)]
    rw [popLastElement_append pc (st ++ [0]) a]
    dsimp only
    rw [popLastElement_append (pc + 1) st 0]
    dsimp only
    rw [if_pos rfl]

/-- Claim C8 (confirmed): a PUSHn opcode whose operand bytes are cut off
by the end of the bytecode pushes nothing, causes no fault (the loop
simply continues) and advances pc only past the opcode byte itself. -/
theorem C8_truncated_push (fuel : ℕ) (code : List ℕ) (pc : ℕ) (stack : List ℕ)
    (op : OpCode) (n : ℕ)
    (hpc : pc < code.length)
    (hop : opCodeMap (code.getD pc 0) = some op)
    (hn : PushOpcodeToBytes op = some n)
    (htrunc : code.length < pc + 1 + n) :
    evmLoop (fuel + 1) code pc stack = evmLoop fuel code (pc + 1) stack := by
  conv_lhs => rw [evmLoop]
  rw [if_pos hpc, hop]
  cases op <;> simp only [PushOpcodeToBytes] at hn <;>
    first
    | exact Option.noConfusion hn
    | (injection hn with hn1
       subst hn1
       dsimp only
       simp only [pushX]
       rw [if_neg (by omega)])

/-- Witness for C8: a lone PUSH1 byte with no operand byte. -/
theorem C8_truncated_push_witness :
    [96].length < 0 + 1 + 1 ∧ evmLoop 1 [96] 0 [] = evmLoop 0 [96] 1 [] :=
  ⟨by decide,
   C8_truncated_push 0 [96] 0 [] OpCode.Push1 1 (by decide) (by decide) (by decide)
     (by decide)⟩

/-- Claim C9 (confirmed): for Words a ≠ b, exactly one of LT(a,b), GT(a,b)
is Word(1) and the other Word(0), and likewise for SLT/SGT under the
two's-complement signed interpretation. -/
theorem C9_comparison_totality (a b : ℕ) (ha : a < modulus) (hb : b < modulus)
    (hab : a ≠ b) :
    ((ltComparison a b = 1 ∧ gtComparison a b = 0) ∨
      (ltComparison a b = 0 ∧ gtComparison a b = 1)) ∧
    ((sltComparison a b = 1 ∧ sgtComparison a b = 0) ∨
      (sltComparison a b = 0 ∧ sgtComparison a b = 1)) := by
  constructor
  · rcases Nat.lt_or_ge a b with h | h
    · exact Or.inl ⟨by simp [ltComparison, h],
                    by have h2 : ¬ b < a := by omega
                       simp [gtComparison, h2]⟩
    · have h2 : b < a := lt_of_le_of_ne h (Ne.symm hab)
      exact Or.inr ⟨by have h3 : ¬ a < b := by omega
                       simp [ltComparison, h3],
                    by simp [gtComparison, h2]⟩
  · cases hA : isNegative a <;> cases hB : isNegative b
    · rcases Nat.lt_or_ge a b with h | h
      · exact Or.inl ⟨by simp [sltComparison, hA, hB, h],
                      by have h2 : ¬ b < a := by omega
                         simp [sgtComparison, hA, hB, h2]⟩
      · have h2 : b < a := lt_of_le_of_ne h (Ne.symm hab)
        exact Or.inr ⟨by have h3 : ¬ a < b := by omega
                         simp [sltComparison, hA, hB, h3],
                      by simp [sgtComparison, hA, hB, h2]⟩
    · exact Or.inr ⟨by simp [sltComparison, hA, hB],
                    by simp [sgtComparison, hA, hB]⟩
    · exact Or.inl ⟨by simp [sltComparison, hA, hB],
                    by simp [sgtComparison, hA, hB]⟩
    · have pa := isNegative_ge hA
      have pb := isNegative_ge hB
      have hpow : 0 < 2 ^ 255 := pow_pos (by norm_num) 255
      have na := overflowingNeg_spec (lt_of_lt_of_le hpow pa) ha
      have nb := overflowingNeg_spec (lt_of_lt_of_le hpow pb) hb
      rcases Nat.lt_or_ge a b with h | h
      · exact Or.inl ⟨by have hc : ¬ (overflowingNeg a ≤ overflowingNeg b) := by
                           rw [na, nb]; omega
                         simp [sltComparison, hA, hB, hc],
                      by have hc : overflowingNeg b ≤ overflowingNeg a := by
                           rw [na, nb]; omega
                         simp [sgtComparison, hA, hB, hc]⟩
      · have h2 : b < a := lt_of_le_of_ne h (Ne.symm hab)
        exact Or.inr ⟨by have hc : overflowingNeg a ≤ overflowingNeg b := by
                           rw [na, nb]; omega
                         simp [sltComparison, hA, hB, hc],
                      by have hc : ¬ (overflowingNeg b ≤ overflowingNeg a) := by
                           rw [na, nb]; omega
                         simp [sgtComparison, hA, hB, hc]⟩

/-- Witness for C9 at a = 5, b = 3. -/
theorem C9_comparison_totality_witness :
    (5 : ℕ) < modulus ∧ (3 : ℕ) < modulus ∧ (5 : ℕ) ≠ 3 ∧
    (((ltComparison 5 3 = 1 ∧ gtComparison 5 3 = 0) ∨
       (ltComparison 5 3 = 0 ∧ gtComparison 5 3 = 1)) ∧
     ((sltComparison 5 3 = 1 ∧ sgtComparison 5 3 = 0) ∨
       (sltComparison 5 3 = 0 ∧ sgtComparison 5 3 = 1))) :=
  ⟨by decide, by decide, by decide,
   C9_comparison_totality 5 3 (by decide) (by decide) (by decide)⟩

/-- Claim C10 (confirmed): every execution terminates.  The loop runs only
while pc < code.length and every non-returning iteration strictly
increases pc, so fuel code.length is never exhausted: Evm never yields the
outOfFuel artefact, and once pc reaches the end of the bytecode the loop
returns immediately with the reversed stack and success. -/
theorem C10_execution_terminates :
    (∀ code : List ℕ, Evm code ≠ ExecResult.outOfFuel) ∧
    (∀ (fuel : ℕ) (code : List ℕ) (pc : ℕ) (stack : List ℕ), code.length ≤ pc →
      evmLoop fuel code pc stack = ExecResult.ret stack.reverse true) := by
  constructor
  · intro code
    exact evmLoop_fuel_sufficient code.length code 0 [] (by omega)
  · intro fuel code pc stack h
    cases fuel <;> (unfold evmLoop; rw [if_neg (by omega)])

/-- Witness for C10. -/
theorem C10_execution_terminates_witness :
    Evm [0] ≠ ExecResult.outOfFuel ∧
    evmLoop 2 [0] 1 [5] = ExecResult.ret [5] true := by
  constructor
  · exact C10_execution_terminates.1 [0]
  · have h := C10_execution_terminates.2 2 [0] 1 [5] (by decide)
    simpa using h

end EvmFromScratch
